import Mathlib

/-!
Verification of the chatroom relay server (`src/main.rs`).

The development shallowly embeds the room registry, the per-room membership
sets, the broadcast channel, and the per-connection handler `handle_socket`
into Lean:

* `Rooms` models `AppState.rooms : Mutex<HashMap<String, RoomState>>` as an
  association list from room name to its membership set (`HashSet<String>`
  becomes `Finset String`; the broadcast sender is modelled separately).
* `joinReg` models the locked handshake block (main.rs lines 102-126) and
  `cleanupReg` the locked teardown block (lines 161-172); both are atomic in
  the code because the whole block holds the `rooms` mutex.
* `hsLoop` / `handshake` model the handshake `while let` loop (lines 89-128)
  together with the `tx.unwrap()` on line 130; `HSOutcome.panicked` marks
  executions on which that unwrap is reached with `tx = None`.
* `inboundLoop` models the spawned relay loop (lines 144-152) and
  `joinAnnounce`/`closing` the subscribe/announce prologue (lines 130-134)
  and the teardown sequence (lines 159-172).
* `Sys`/`Step`/`Reachable` interleave the atomic registry operations of many
  sessions, to settle the registry invariants.
-/

namespace Chatroom

/-- A websocket frame as seen by `handle_socket`: a text frame carrying a
string, or any other frame kind (binary, ping, pong, close), which the
handshake loop skips and the relay loop stops on. -/
inductive Frame where
  | text (s : String)
  | nonText
deriving DecidableEq

/-- One poll of `receiver.next()`: `ok f` is `Some(Ok(f))`, `errEvent` is
`Some(Err(_))`.  The end of the event list is `None` (the stream ended). -/
inductive InEvent where
  | ok (f : Frame)
  | errEvent
deriving DecidableEq

/-- The handshake payload `Connect \x7b username, channel \x7d`. -/
structure Connect where
  username : String
  channel : String
deriving DecidableEq

/-- A room's membership set, `RoomState.users : Mutex<HashSet<String>>`. -/
abbrev Users := Finset String

/-- The registry `AppState.rooms : HashMap<String, RoomState>`, as an
association list from room name to membership set. -/
abbrev Rooms := List (String × Users)

/-- `rooms.get(&c)`: first binding of key `c`. -/
def lookupRoom : Rooms → String → Option Users
  | [], _ => none
  | (k, us) :: rest, c => if k = c then some us else lookupRoom rest c

/-- Store membership set `v` under key `c` (replace the first binding of `c`,
or append a fresh one): the net effect of `entry(c).or_insert_with(..)`
followed by mutation of that room's `users`. -/
def setRoom : Rooms → String → Users → Rooms
  | [], c, v => [(c, v)]
  | (k, us) :: rest, c, v =>
    if k = c then (c, v) :: rest else (k, us) :: setRoom rest c v

/-- `rooms.remove(&c)`: drop the first binding of key `c`. -/
def removeRoom : Rooms → String → Rooms
  | [], _ => []
  | (k, us) :: rest, c => if k = c then rest else (k, us) :: removeRoom rest c

/-- The room names present in the registry. -/
def roomKeys (r : Rooms) : List String := r.map Prod.fst

/-- The locked join block of `handle_socket` (main.rs lines 102-126):
look the room up (creating it when absent), insert the username when it is
not already a member, and report whether the session proceeds.  The boolean
mirrors `tx.is_some() && !username.is_empty()`: `tx` is always set here, and
the local `username` was assigned (to `connect.username`) exactly when the
membership test failed, so the session proceeds iff the name was absent and
nonempty. -/
def joinReg (r : Rooms) (c u : String) : Bool × Rooms :=
  let users := (lookupRoom r c).getD ∅
  if u ∈ users then
    (false, setRoom r c users)
  else
    (u != "", setRoom r c (insert u users))

/-- The locked teardown block of `handle_socket` (main.rs lines 161-172):
`rooms.get_mut(&channel).unwrap()` (`none` = the unwrap panics), remove the
username from the membership set, then remove the room when the set became
empty (`users.lock().unwrap().len() == 0`). -/
def cleanupReg (r : Rooms) (c u : String) : Option Rooms :=
  match lookupRoom r c with
  | none => none
  | some users =>
    let users' := users.erase u
    let r' := setRoom r c users'
    some (if users'.card = 0 then removeRoom r' c else r')

/-! ### The handshake loop of `handle_socket` (main.rs lines 83-134) -/

/-- The local mutable state of `handle_socket` during its handshake loop:
`username`, `channel`, the optional broadcast sender `tx` (recorded as the
room name whose sender was cloned), the text messages sent on the socket so
far, the registry, and whether the `return` on line 125 ran. -/
structure HSState where
  username : String
  channel : String
  txRoom : Option String
  sentMsgs : List String
  reg : Rooms
  returned : Bool
deriving DecidableEq

/-- The variables' initial values (main.rs lines 85-87). -/
def HSState.start (reg : Rooms) : HSState :=
  ⟨"", "", none, [], reg, false⟩

/-- The handshake `while let Some(Ok(msg)) = receiver.next()` loop
(main.rs lines 89-128), parametric in the JSON decoder
`serde_json::from_str::<Connect>`.  A `Some(Err(_))` poll or the end of the
stream exits the loop; a non-text frame is skipped; a text frame is decoded:
on failure the handler sends "Failed to connect to room!" and breaks, on
success it runs the locked join block and either breaks (join accepted) or
sends "Username already taken." and returns. -/
def hsLoop (decode : String → Option Connect) :
    List InEvent → HSState → HSState
  | [], st => st
  | .errEvent :: _, st => st
  | .ok .nonText :: rest, st => hsLoop decode rest st
  | .ok (.text s) :: _, st =>
    match decode s with
    | none =>
      { st with sentMsgs := st.sentMsgs ++ ["Failed to connect to room!"] }
    | some cn =>
      let users := (lookupRoom st.reg cn.channel).getD ∅
      let username' := if cn.username ∈ users then st.username else cn.username
      let users' := if cn.username ∈ users then users else insert cn.username users
      let st' : HSState :=
        { st with
          channel := cn.channel
          txRoom := some cn.channel
          username := username'
          reg := setRoom st.reg cn.channel users' }
      if username' = "" then
        { st' with
          sentMsgs := st'.sentMsgs ++ ["Username already taken."]
          returned := true }
      else st'

/-- How `handle_socket` leaves the handshake phase: `returnedTaken` is the
`return` on line 125, `panicked` is the `tx.unwrap()` on line 130 evaluated
with `tx = None`, and `active` is the continuation into the subscribe /
announce / relay phase. -/
inductive HSOutcome where
  | returnedTaken (st : HSState)
  | panicked (st : HSState)
  | active (st : HSState)
deriving DecidableEq

/-- Run the handshake loop from the initial local state and then the
`let tx = tx.unwrap()` on line 130. -/
def handshake (decode : String → Option Connect) (reg : Rooms)
    (frames : List InEvent) : HSOutcome :=
  let st := hsLoop decode frames (HSState.start reg)
  if st.returned then .returnedTaken st
  else
    match st.txRoom with
    | none => .panicked st
    | some _ => .active st

def HSOutcome.isTaken : HSOutcome → Bool
  | .returnedTaken _ => true
  | _ => false

def HSOutcome.isActive : HSOutcome → Bool
  | .active _ => true
  | _ => false

def HSOutcome.isPanic : HSOutcome → Bool
  | .panicked _ => true
  | _ => false

/-- The final local state carried by any of the three outcomes. -/
def HSOutcome.state : HSOutcome → HSState
  | .returnedTaken st => st
  | .panicked st => st
  | .active st => st

/-! ### The broadcast channel and the active phase -/

/-- The room's broadcast channel, reduced to the list of lines sent on it (in
send order).  A subscriber is a cursor into this list: `tx.subscribe()`
starts the cursor at the current length, so a receiver observes exactly the
lines sent after its subscription. -/
structure BChan where
  log : List String
deriving DecidableEq

/-- `tx.subscribe()`: the new receiver's cursor. -/
def subscribeAt (ch : BChan) : Nat := ch.log.length

/-- `tx.send(line)`. -/
def bsend (ch : BChan) (line : String) : BChan := ⟨ch.log ++ [line]⟩

/-- Main.rs lines 131-134: `let mut rx = tx.subscribe();` then
`tx.send(format!(.. joined the chat!))`, returning the new receiver's cursor
and the channel afterwards. -/
def joinAnnounce (u : String) (ch : BChan) : Nat × BChan :=
  let cursor := subscribeAt ch
  (cursor, bsend ch (u ++ " joined the chat!"))

/-- The spawned inbound relay loop (main.rs lines 144-152):
`while let Some(Ok(Message::Text(text))) = receiver.next()` sends
`format!(".. : ..", name, text)` on the room's broadcast channel; the loop
stops on end of stream, a transport error, or any non-text frame.  The
result is the list of lines it broadcasts, in order. -/
def inboundLoop (name : String) : List InEvent → List String
  | .ok (.text t) :: rest => (name ++ ": " ++ t) :: inboundLoop name rest
  | _ => []

/-- Modelled from the spec: the payloads of the maximal leading run of text
frames ("for every inbound text message from the connection ...; stops when
the connection closes, errors, or sends a non-text frame"). -/
def leadingTexts (evs : List InEvent) : List String :=
  (evs.takeWhile fun e =>
      match e with
      | .ok (.text _) => true
      | _ => false).map fun e =>
    match e with
    | .ok (.text s) => s
    | _ => ""

/-- The teardown of `handle_socket` (main.rs lines 159-172): broadcast
".. left the chat!", then run the locked cleanup block `cleanupReg`
(remove the username, then remove the room if its set became empty).
The registry is `none` when `rooms.get_mut(&channel).unwrap()` panics. -/
def closing (reg : Rooms) (c u : String) (ch : BChan) :
    BChan × Option Rooms :=
  (bsend ch (u ++ " left the chat!"), cleanupReg reg c u)

/-- The membership-removal statement alone (main.rs lines 161-168):
look the room up (`none` = the unwrap panics) and erase the username from
its membership set. -/
def leaveReg (reg : Rooms) (c u : String) : Option Rooms :=
  match lookupRoom reg c with
  | none => none
  | some users => some (setRoom reg c (users.erase u))

/-- A concrete decoder used for concrete executions: "JOINREQ" decodes to a
well-formed join request, "EMPTYU" to a join request whose username is the
empty string, and everything else fails to decode. -/
def decodeDemo : String → Option Connect := fun s =>
  if s = "JOINREQ" then some ⟨"bob", "x"⟩
  else if s = "EMPTYU" then some ⟨"", "lobby"⟩
  else none

/-! ### Interleaving many sessions

The registry mutations of `handle_socket` happen inside two critical
sections guarded by the `rooms` mutex: the join block (lines 102-116,
summarised by `joinReg`) and the teardown block (lines 161-172, summarised
by `cleanupReg`).  A system state tracks the registry plus the
channel/username pairs of the sessions that joined successfully and have not
torn down yet; steps interleave these atomic blocks in any order. -/

structure Sys where
  reg : Rooms
  activeSessions : List (String × String)
deriving DecidableEq

/-- The freshly started server: `rooms: Mutex::new(HashMap::new())`. -/
def Sys.start : Sys := ⟨[], []⟩

/-- One atomic registry block of some session: a handshake join attempt
(accepted attempts make the session live), or the teardown of a live
session (enabled only when its `rooms.get_mut(&channel).unwrap()`
succeeds). -/
inductive Step : Sys → Sys → Prop where
  | join (c u : String) (s : Sys) (acc : Bool) (reg' : Rooms)
      (h : joinReg s.reg c u = (acc, reg')) :
      Step s ⟨reg', if acc then (c, u) :: s.activeSessions else s.activeSessions⟩
  | teardown (c u : String) (s : Sys) (reg' : Rooms)
      (hmem : (c, u) ∈ s.activeSessions)
      (h : cleanupReg s.reg c u = some reg') :
      Step s ⟨reg', s.activeSessions.erase (c, u)⟩

/-- States reachable from the fresh server by interleaved session steps. -/
inductive Reachable : Sys → Prop where
  | start : Reachable Sys.start
  | step {s t : Sys} : Reachable s → Step s t → Reachable t

/-- The inductive invariant: registry keys are unique, every room present in
the registry has at least one member, every live session's username is
nonempty and recorded in its room's membership set, and no two live
sessions share a channel/username pair. -/
def Inv (s : Sys) : Prop :=
  (roomKeys s.reg).Nodup ∧
  (∀ c us, lookupRoom s.reg c = some us → us.Nonempty) ∧
  (∀ p ∈ s.activeSessions,
      p.2 ≠ "" ∧ ∃ us, lookupRoom s.reg p.1 = some us ∧ p.2 ∈ us) ∧
  s.activeSessions.Nodup

@[simp] theorem roomKeys_nil : roomKeys ([] : Rooms) = [] := rfl

@[simp] theorem roomKeys_cons (k : String) (us : Users) (tl : Rooms) :
    roomKeys ((k, us) :: tl) = k :: roomKeys tl := rfl

/-! ### Association-list lemmas -/

theorem lookupRoom_setRoom_self (r : Rooms) (c : String) (v : Users) :
    lookupRoom (setRoom r c v) c = some v := by
  induction r with
  | nil => simp [setRoom, lookupRoom]
  | cons hd tl ih =>
    obtain ⟨k, us⟩ := hd
    by_cases hk : k = c
    · simp [setRoom, hk, lookupRoom]
    · simp [setRoom, hk, lookupRoom, ih]

theorem lookupRoom_setRoom_ne (r : Rooms) (c c' : String) (v : Users)
    (h : c' ≠ c) : lookupRoom (setRoom r c v) c' = lookupRoom r c' := by
  have hcc : c ≠ c' := Ne.symm h
  induction r with
  | nil => simp [setRoom, lookupRoom, hcc]
  | cons hd tl ih =>
    obtain ⟨k, us⟩ := hd
    by_cases hk : k = c
    · subst hk
      simp [setRoom, lookupRoom, hcc]
    · simp [setRoom, hk, lookupRoom, ih]

theorem setRoom_lookup_eq (r : Rooms) (c : String) (v : Users)
    (h : lookupRoom r c = some v) : setRoom r c v = r := by
  induction r with
  | nil => simp [lookupRoom] at h
  | cons hd tl ih =>
    obtain ⟨k, us⟩ := hd
    by_cases hk : k = c
    · subst hk
      simp [lookupRoom] at h
      simp [setRoom, h]
    · simp [lookupRoom, hk] at h
      simp [setRoom, hk, ih h]

theorem setRoom_setRoom (r : Rooms) (c : String) (v w : Users) :
    setRoom (setRoom r c v) c w = setRoom r c w := by
  induction r with
  | nil => simp [setRoom]
  | cons hd tl ih =>
    obtain ⟨k, us⟩ := hd
    by_cases hk : k = c
    · simp [setRoom, hk]
    · simp [setRoom, hk, ih]

theorem mem_roomKeys_setRoom (r : Rooms) (c c' : String) (v : Users) :
    c' ∈ roomKeys (setRoom r c v) ↔ c' ∈ roomKeys r ∨ c' = c := by
  induction r with
  | nil => simp [setRoom]
  | cons hd tl ih =>
    obtain ⟨k, us⟩ := hd
    by_cases hk : k = c
    · subst hk
      rw [show setRoom ((k, us) :: tl) k v = (k, v) :: tl by simp [setRoom],
        roomKeys_cons, roomKeys_cons]
      simp only [List.mem_cons]
      tauto
    · rw [show setRoom ((k, us) :: tl) c v = (k, us) :: setRoom tl c v by
        simp [setRoom, hk], roomKeys_cons, roomKeys_cons]
      simp only [List.mem_cons, ih]
      tauto

theorem roomKeys_setRoom_nodup (r : Rooms) (c : String) (v : Users)
    (h : (roomKeys r).Nodup) : (roomKeys (setRoom r c v)).Nodup := by
  induction r with
  | nil => simp [setRoom]
  | cons hd tl ih =>
    obtain ⟨k, us⟩ := hd
    rw [roomKeys_cons, List.nodup_cons] at h
    by_cases hk : k = c
    · subst hk
      rw [show setRoom ((k, us) :: tl) k v = (k, v) :: tl by simp [setRoom],
        roomKeys_cons, List.nodup_cons]
      exact h
    · rw [show setRoom ((k, us) :: tl) c v = (k, us) :: setRoom tl c v by
        simp [setRoom, hk], roomKeys_cons, List.nodup_cons]
      refine ⟨fun hmem => ?_, ih h.2⟩
      rcases (mem_roomKeys_setRoom tl c k v).1 hmem with hin | heq
      · exact h.1 hin
      · exact hk heq

theorem lookupRoom_eq_none_of_not_mem_keys (r : Rooms) (c : String)
    (h : c ∉ roomKeys r) : lookupRoom r c = none := by
  induction r with
  | nil => simp [lookupRoom]
  | cons hd tl ih =>
    obtain ⟨k, us⟩ := hd
    rw [roomKeys_cons, List.mem_cons] at h
    push_neg at h
    simp [lookupRoom, Ne.symm h.1, ih h.2]

theorem lookupRoom_removeRoom_self (r : Rooms) (c : String)
    (h : (roomKeys r).Nodup) : lookupRoom (removeRoom r c) c = none := by
  induction r with
  | nil => simp [removeRoom, lookupRoom]
  | cons hd tl ih =>
    obtain ⟨k, us⟩ := hd
    rw [roomKeys_cons, List.nodup_cons] at h
    by_cases hk : k = c
    · subst hk
      rw [show removeRoom ((k, us) :: tl) k = tl by simp [removeRoom]]
      exact lookupRoom_eq_none_of_not_mem_keys tl k h.1
    · rw [show removeRoom ((k, us) :: tl) c = (k, us) :: removeRoom tl c by
        simp [removeRoom, hk]]
      simp [lookupRoom, hk, ih h.2]

theorem lookupRoom_removeRoom_ne (r : Rooms) (c c' : String) (h : c' ≠ c) :
    lookupRoom (removeRoom r c) c' = lookupRoom r c' := by
  have hcc : c ≠ c' := Ne.symm h
  induction r with
  | nil => simp [removeRoom]
  | cons hd tl ih =>
    obtain ⟨k, us⟩ := hd
    by_cases hk : k = c
    · subst hk
      simp [removeRoom, lookupRoom, hcc]
    · simp [removeRoom, hk, lookupRoom, ih]

theorem roomKeys_removeRoom_sublist (r : Rooms) (c : String) :
    (roomKeys (removeRoom r c)).Sublist (roomKeys r) := by
  induction r with
  | nil => simp [removeRoom]
  | cons hd tl ih =>
    obtain ⟨k, us⟩ := hd
    by_cases hk : k = c
    · simp [removeRoom, hk]
    · simpa [removeRoom, hk] using ih.cons₂ k

theorem roomKeys_removeRoom_nodup (r : Rooms) (c : String)
    (h : (roomKeys r).Nodup) : (roomKeys (removeRoom r c)).Nodup :=
  (roomKeys_removeRoom_sublist r c).nodup h

theorem lookupRoom_mem_keys (r : Rooms) (c : String) (us : Users)
    (h : lookupRoom r c = some us) : c ∈ roomKeys r := by
  induction r with
  | nil => simp [lookupRoom] at h
  | cons hd tl ih =>
    obtain ⟨k, us'⟩ := hd
    by_cases hk : k = c
    · rw [roomKeys_cons]
      exact hk ▸ List.mem_cons_self k _
    · simp only [lookupRoom, if_neg hk] at h
      rw [roomKeys_cons]
      exact List.mem_cons_of_mem _ (ih h)

theorem inv_start : Inv Sys.start := by
  refine ⟨List.nodup_nil, ?_, ?_, List.nodup_nil⟩
  · intro c us h
    simp [Sys.start, lookupRoom] at h
  · intro p hp
    simp [Sys.start] at hp

theorem joinReg_mem (r : Rooms) (c u : String)
    (h : u ∈ (lookupRoom r c).getD ∅) :
    joinReg r c u = (false, setRoom r c ((lookupRoom r c).getD ∅)) := by
  simp [joinReg, h]

theorem joinReg_not_mem (r : Rooms) (c u : String)
    (h : u ∉ (lookupRoom r c).getD ∅) :
    joinReg r c u = (u != "", setRoom r c (insert u ((lookupRoom r c).getD ∅))) := by
  simp [joinReg, h]

theorem inv_join (s : Sys) (c u : String) (acc : Bool) (reg' : Rooms)
    (hI : Inv s) (h : joinReg s.reg c u = (acc, reg')) :
    Inv ⟨reg', if acc then (c, u) :: s.activeSessions else s.activeSessions⟩ := by
  obtain ⟨hkeys, hne, hact, hnd⟩ := hI
  by_cases hmem : u ∈ (lookupRoom s.reg c).getD ∅
  · -- name already taken: the registry is written back unchanged
    have hlk : lookupRoom s.reg c = some ((lookupRoom s.reg c).getD ∅) := by
      cases hl : lookupRoom s.reg c with
      | none => rw [hl] at hmem; simp at hmem
      | some us => simp [hl]
    have hacc : acc = false ∧ reg' = s.reg := by
      have hthis := h
      rw [joinReg_mem _ _ _ hmem, Prod.mk.injEq] at hthis
      obtain ⟨h1, h2⟩ := hthis
      exact ⟨h1.symm, by rw [← h2, setRoom_lookup_eq _ _ _ hlk]⟩
    obtain ⟨h1, h2⟩ := hacc
    subst h1 h2
    simpa using ⟨hkeys, hne, hact, hnd⟩
  · -- name absent: it is inserted; the session is live iff the name is nonempty
    have hres : acc = (u != "") ∧
        reg' = setRoom s.reg c (insert u ((lookupRoom s.reg c).getD ∅)) := by
      have hthis := h
      rw [joinReg_not_mem _ _ _ hmem, Prod.mk.injEq] at hthis
      obtain ⟨h1, h2⟩ := hthis
      exact ⟨h1.symm, h2.symm⟩
    obtain ⟨h1, h2⟩ := hres
    subst h1 h2
    set users0 := (lookupRoom s.reg c).getD ∅ with husers0
    refine ⟨roomKeys_setRoom_nodup _ _ _ hkeys, ?_, ?_, ?_⟩
    · intro c' us' hlk'
      by_cases hc : c' = c
      · subst hc
        rw [lookupRoom_setRoom_self] at hlk'
        cases hlk'
        exact Finset.insert_nonempty _ _
      · rw [lookupRoom_setRoom_ne _ _ _ _ hc] at hlk'
        exact hne c' us' hlk'
    · intro p hp
      have hp' : p ∈ s.activeSessions ∨ ((u != "") = true ∧ p = (c, u)) := by
        by_cases hacc : (u != "") = true
        · rw [if_pos hacc] at hp
          rcases List.mem_cons.1 hp with hpe | hin
          · exact Or.inr ⟨hacc, hpe⟩
          · exact Or.inl hin
        · rw [if_neg hacc] at hp
          exact Or.inl hp
      rcases hp' with hin | ⟨hune, hpe⟩
      · obtain ⟨hne', us, hlk, hmm⟩ := hact p hin
        refine ⟨hne', ?_⟩
        by_cases hc : p.1 = c
        · subst hc
          refine ⟨insert u users0, lookupRoom_setRoom_self _ _ _, ?_⟩
          have : users0 = us := by
            rw [husers0, hlk]
            simp
          rw [this]
          exact Finset.mem_insert_of_mem hmm
        · exact ⟨us, by rw [lookupRoom_setRoom_ne _ _ _ _ hc]; exact hlk, hmm⟩
      · subst hpe
        refine ⟨by simpa using hune, insert u users0,
          lookupRoom_setRoom_self _ _ _, Finset.mem_insert_self _ _⟩
    · by_cases hacc : (u != "") = true
      · rw [if_pos hacc, List.nodup_cons]
        refine ⟨fun hin => ?_, hnd⟩
        obtain ⟨-, us, hlk, hmm⟩ := hact (c, u) hin
        rw [husers0, hlk] at hmem
        exact hmem (by simpa using hmm)
      · rw [if_neg hacc]
        exact hnd

theorem inv_teardown (s : Sys) (c u : String) (reg' : Rooms)
    (hI : Inv s) (hmem : (c, u) ∈ s.activeSessions)
    (h : cleanupReg s.reg c u = some reg') :
    Inv ⟨reg', s.activeSessions.erase (c, u)⟩ := by
  obtain ⟨hkeys, hne, hact, hnd⟩ := hI
  cases hlk : lookupRoom s.reg c with
  | none => rw [cleanupReg, hlk] at h; cases h
  | some users =>
    rw [cleanupReg, hlk] at h
    simp only [Option.some.injEq] at h
    subst h
    have hkeys' : (roomKeys (setRoom s.reg c (users.erase u))).Nodup :=
      roomKeys_setRoom_nodup _ _ _ hkeys
    refine ⟨?_, ?_, ?_, hnd.erase _⟩
    · by_cases hcard : (users.erase u).card = 0
      · rw [if_pos hcard]
        exact roomKeys_removeRoom_nodup _ _ hkeys'
      · rw [if_neg hcard]
        exact hkeys'
    · intro c' us' hlk'
      by_cases hcard : (users.erase u).card = 0
      · rw [if_pos hcard] at hlk'
        by_cases hc : c' = c
        · subst hc
          rw [lookupRoom_removeRoom_self _ _ hkeys'] at hlk'
          cases hlk'
        · rw [lookupRoom_removeRoom_ne _ _ _ hc,
            lookupRoom_setRoom_ne _ _ _ _ hc] at hlk'
          exact hne c' us' hlk'
      · rw [if_neg hcard] at hlk'
        by_cases hc : c' = c
        · subst hc
          rw [lookupRoom_setRoom_self] at hlk'
          cases hlk'
          exact Finset.card_ne_zero.1 hcard
        · rw [lookupRoom_setRoom_ne _ _ _ _ hc] at hlk'
          exact hne c' us' hlk'
    · intro p hp
      have hp' : p ≠ (c, u) ∧ p ∈ s.activeSessions :=
        (hnd.mem_erase_iff.1 hp)
      obtain ⟨hpne, hin⟩ := hp'
      obtain ⟨hne', us', hlk', hmm'⟩ := hact p hin
      refine ⟨hne', ?_⟩
      by_cases hc : p.1 = c
      · -- same room, different user: the erased set still holds p.2,
        -- so the room was not removed
        have hus : us' = users := by
          rw [hc] at hlk'
          rw [hlk'] at hlk
          cases hlk
          rfl
        subst hus
        have hpu : p.2 ≠ u := by
          intro hpu
          apply hpne
          have : p = (p.1, p.2) := rfl
          rw [this, hc, hpu]
        have hmm2 : p.2 ∈ us'.erase u := Finset.mem_erase.2 ⟨hpu, hmm'⟩
        have hcard : (us'.erase u).card ≠ 0 :=
          Finset.card_ne_zero.2 ⟨p.2, hmm2⟩
        rw [if_neg hcard, hc]
        exact ⟨us'.erase u, lookupRoom_setRoom_self _ _ _, hmm2⟩
      · have hlkeep :
            lookupRoom (setRoom s.reg c (users.erase u)) p.1 = some us' := by
          rw [lookupRoom_setRoom_ne _ _ _ _ hc]
          exact hlk'
        by_cases hcard : (users.erase u).card = 0
        · rw [if_pos hcard]
          exact ⟨us', by rw [lookupRoom_removeRoom_ne _ _ _ hc]; exact hlkeep, hmm'⟩
        · rw [if_neg hcard]
          exact ⟨us', hlkeep, hmm'⟩

theorem reachable_inv (s : Sys) (h : Reachable s) : Inv s := by
  induction h with
  | start => exact inv_start
  | step hr hstep ih =>
    cases hstep with
    | join c u _ acc reg' hj => exact inv_join _ c u acc reg' ih hj
    | teardown c u _ reg' hmem hc => exact inv_teardown _ c u reg' ih hmem hc

/-! ### Claims -/

/-- C1: a connection whose first text frame fails to decode sends the single
notice "Failed to connect to room!" and acquires no room membership and runs
no cleanup (registry unchanged, no username), but connection handling does
NOT end normally: the handshake loop `break`s with `tx = None` and the
`tx.unwrap()` on line 130 panics (`HSOutcome.panicked`).  The claim's
"terminates directly (connection handling ends normally)" is the one part
the code does not satisfy. -/
theorem decode_failure_sends_notice_then_panics :
    handshake decodeDemo [] [.ok (.text "garbage")]
      = .panicked ⟨"", "", none, ["Failed to connect to room!"], [], false⟩ :=
  rfl

/-- C10: the claim that the `tx.unwrap()` after the handshake loop never
panics is false on the code: when the stream ends, yields an error, or the
first text frame fails to decode, the loop exits with the sender option
still `None` and the unwrap panics.  Three such executions, the last one
showing that a decode failure breaks the loop for good even though a valid
join request follows. -/
theorem handshake_unwrap_panics_without_join :
    handshake decodeDemo [] [] = .panicked (HSState.start []) ∧
    handshake decodeDemo [] [.errEvent] = .panicked (HSState.start []) ∧
    (handshake decodeDemo []
        [.ok (.text "garbage"), .ok (.text "JOINREQ")]).isPanic = true :=
  ⟨rfl, rfl, rfl⟩

/-- C4: the session's receiver is created by `tx.subscribe()` strictly
before `tx.send` broadcasts the join announcement: the subscription cursor
equals the channel length before the announcement, and the part of the
channel the subscription observes (everything from its cursor on) is
exactly the session's own join announcement. -/
theorem subscribe_before_join_announcement (u : String) (ch : BChan) :
    (joinAnnounce u ch).1 = ch.log.length ∧
    (joinAnnounce u ch).2.log.drop (joinAnnounce u ch).1
      = [u ++ " joined the chat!"] := by
  refine ⟨rfl, ?_⟩
  show (ch.log ++ [u ++ " joined the chat!"]).drop ch.log.length = _
  simp

/-- C5: the inbound relay loop broadcasts, for every text frame of the
maximal leading run of text frames, exactly the line
username ++ ": " ++ text (the client's text verbatim after the prefix), and
produces nothing once the stream ends, errors, or delivers a non-text
frame. -/
theorem inbound_relay_lines (name : String) (evs : List InEvent) :
    inboundLoop name evs
      = (leadingTexts evs).map fun t => name ++ ": " ++ t := by
  induction evs with
  | nil => rfl
  | cons e rest ih =>
    cases e with
    | errEvent => rfl
    | ok f =>
      cases f with
      | nonText => rfl
      | text t =>
        have h1 : inboundLoop name (.ok (.text t) :: rest)
            = (name ++ ": " ++ t) :: inboundLoop name rest := rfl
        have h2 : leadingTexts (.ok (.text t) :: rest)
            = t :: leadingTexts rest := by
          simp [leadingTexts, List.takeWhile_cons]
        rw [h1, h2, List.map_cons, ih]

/-- C8 counterexample: a text frame that is a join request, received while
the session is Active, is NOT treated as a decode failure: the inbound loop
relays it as the chat line "alice: JOINREQ" and keeps running (it also
relays the following frame), sending no failure notice and not
terminating. -/
theorem join_request_not_treated_as_decode_failure :
    decodeDemo "JOINREQ" = some ⟨"bob", "x"⟩ ∧
    inboundLoop "alice" [.ok (.text "JOINREQ"), .ok (.text "hi")]
      = ["alice: JOINREQ", "alice: hi"] :=
  ⟨rfl, rfl⟩

/-- C8 amended: a text frame received on an already-handshaken (Active)
session — even one that decodes as a valid join request — is relayed as the
ordinary chat line name ++ ": " ++ text and the inbound loop continues with
the rest of the stream. -/
theorem active_join_request_relayed (decode : String → Option Connect)
    (name s : String) (cn : Connect) (rest : List InEvent)
    (hd : decode s = some cn) :
    decode s ≠ none ∧
    inboundLoop name (.ok (.text s) :: rest)
      = (name ++ ": " ++ s) :: inboundLoop name rest :=
  ⟨by simp [hd], rfl⟩

/-- Witness for the amended C8 at a concrete decoder, username and stream. -/
theorem active_join_request_relayed_witness :
    decodeDemo "JOINREQ" ≠ none ∧
    inboundLoop "alice" [.ok (.text "JOINREQ"), .ok (.text "hi")]
      = ("alice" ++ ": " ++ "JOINREQ") :: inboundLoop "alice" [.ok (.text "hi")] :=
  active_join_request_relayed decodeDemo "alice" "JOINREQ" ⟨"bob", "x"⟩
    [.ok (.text "hi")] rfl

/-- Evaluation of the handshake on one decoded frame whose username is
already a member: the room's set is written back as read, the notice
"Username already taken." is sent, and the handler returns. -/
theorem handshake_single_mem (decode : String → Option Connect) (reg : Rooms)
    (s : String) (cn : Connect) (hd : decode s = some cn)
    (hm : cn.username ∈ (lookupRoom reg cn.channel).getD ∅) :
    handshake decode reg [.ok (.text s)]
      = .returnedTaken ⟨"", cn.channel, some cn.channel,
          ["Username already taken."],
          setRoom reg cn.channel ((lookupRoom reg cn.channel).getD ∅), true⟩ := by
  simp [handshake, hsLoop, hd, hm, HSState.start]

/-- Evaluation of the handshake on one decoded frame whose username is
absent and nonempty: the username is inserted and the session goes
active. -/
theorem handshake_single_not_mem (decode : String → Option Connect)
    (reg : Rooms) (s : String) (cn : Connect) (hd : decode s = some cn)
    (hm : cn.username ∉ (lookupRoom reg cn.channel).getD ∅)
    (hne : cn.username ≠ "") :
    handshake decode reg [.ok (.text s)]
      = .active ⟨cn.username, cn.channel, some cn.channel, [],
          setRoom reg cn.channel
            (insert cn.username ((lookupRoom reg cn.channel).getD ∅)),
          false⟩ := by
  simp [handshake, hsLoop, hd, hm, hne, HSState.start]

/-- Evaluation of the handshake on one decoded frame whose username is
absent but empty: the empty username is inserted into the membership set,
and the session is nevertheless rejected with "Username already taken.". -/
theorem handshake_single_empty (decode : String → Option Connect)
    (reg : Rooms) (s : String) (cn : Connect) (hd : decode s = some cn)
    (hm : cn.username ∉ (lookupRoom reg cn.channel).getD ∅)
    (he : cn.username = "") :
    handshake decode reg [.ok (.text s)]
      = .returnedTaken ⟨"", cn.channel, some cn.channel,
          ["Username already taken."],
          setRoom reg cn.channel
            (insert "" ((lookupRoom reg cn.channel).getD ∅)), true⟩ := by
  have hm0 : "" ∉ (lookupRoom reg cn.channel).getD ∅ := by
    rw [← he]; exact hm
  simp [handshake, hsLoop, hd, he, hm0, HSState.start]

/-- C2 counterexample: on an empty registry the username "" is not a member
of "lobby" (the room does not even exist), yet the handshake is rejected
with "Username already taken.", and the rejection does not leave the
membership state unchanged: the room "lobby" is created with "" in its
membership set. -/
theorem empty_username_rejected_but_inserted :
    lookupRoom ([] : Rooms) "lobby" = none ∧
    handshake decodeDemo [] [.ok (.text "EMPTYU")]
      = .returnedTaken ⟨"", "lobby", some "lobby", ["Username already taken."],
          [("lobby", insert "" ∅)], true⟩ :=
  ⟨rfl, rfl⟩

/-- C2 amended: a handshake join attempt is rejected with "Username already
taken." iff the requested username is already a member of the room OR is
the empty string.  A rejection of an already-member username leaves the
registry unchanged; an accepted join (name absent and nonempty) inserts the
username and goes active with no notice sent.  (A rejection of an absent
empty username inserts "" first — see the counterexample.) -/
theorem handshake_taken_iff (decode : String → Option Connect) (reg : Rooms)
    (s : String) (cn : Connect) (hd : decode s = some cn) :
    ((handshake decode reg [.ok (.text s)]).isTaken = true ↔
        cn.username ∈ (lookupRoom reg cn.channel).getD ∅ ∨ cn.username = "") ∧
    (cn.username ∈ (lookupRoom reg cn.channel).getD ∅ →
        (handshake decode reg [.ok (.text s)]).state.reg = reg ∧
        (handshake decode reg [.ok (.text s)]).state.sentMsgs
          = ["Username already taken."]) ∧
    (cn.username ∉ (lookupRoom reg cn.channel).getD ∅ → cn.username ≠ "" →
        (handshake decode reg [.ok (.text s)]).isActive = true ∧
        (handshake decode reg [.ok (.text s)]).state.sentMsgs = [] ∧
        (handshake decode reg [.ok (.text s)]).state.username = cn.username ∧
        (handshake decode reg [.ok (.text s)]).state.channel = cn.channel ∧
        lookupRoom (handshake decode reg [.ok (.text s)]).state.reg cn.channel
          = some (insert cn.username ((lookupRoom reg cn.channel).getD ∅))) := by
  by_cases hm : cn.username ∈ (lookupRoom reg cn.channel).getD ∅
  · have hlk : lookupRoom reg cn.channel
        = some ((lookupRoom reg cn.channel).getD ∅) := by
      cases hl : lookupRoom reg cn.channel with
      | none => rw [hl] at hm; simp at hm
      | some us => simp [hl]
    rw [handshake_single_mem decode reg s cn hd hm]
    refine ⟨by simp [HSOutcome.isTaken, hm], ?_, ?_⟩
    · intro _
      exact ⟨by simp [HSOutcome.state, setRoom_lookup_eq _ _ _ hlk],
        by simp [HSOutcome.state]⟩
    · intro hm'
      exact absurd hm hm'
  · by_cases hne : cn.username = ""
    · rw [handshake_single_empty decode reg s cn hd hm hne]
      refine ⟨by simp [HSOutcome.isTaken, hne], ?_, ?_⟩
      · intro hm'
        exact absurd hm' hm
      · intro _ hne'
        exact absurd hne hne'
    · rw [handshake_single_not_mem decode reg s cn hd hm hne]
      refine ⟨by simp [HSOutcome.isTaken, hm, hne], ?_, ?_⟩
      · intro hm'
        exact absurd hm' hm
      · intro _ _
        exact ⟨rfl, rfl, rfl, rfl, by
          simp [HSOutcome.state, lookupRoom_setRoom_self]⟩

/-- Witness for the amended C2: on an empty registry, the join request
decoded from "JOINREQ" ("bob" into room "x") goes active under the name
"bob". -/
theorem handshake_taken_iff_witness :
    (handshake decodeDemo [] [.ok (.text "JOINREQ")]).isActive = true ∧
    (handshake decodeDemo [] [.ok (.text "JOINREQ")]).state.username = "bob" := by
  have h := (handshake_taken_iff decodeDemo [] "JOINREQ" ⟨"bob", "x"⟩ rfl).2.2
      (by decide) (by decide)
  exact ⟨h.1, h.2.2.1⟩

/-- C7: given that the room exists in the registry, removing a username from
its membership set never errors, is a no-op when the username is absent, and
removing twice has the same effect as removing once. -/
theorem leave_idempotent (reg : Rooms) (c u : String) (users : Users)
    (hlk : lookupRoom reg c = some users) :
    (leaveReg reg c u).isSome = true ∧
    (u ∉ users → leaveReg reg c u = some reg) ∧
    (leaveReg reg c u).bind (fun r => leaveReg r c u) = leaveReg reg c u := by
  have h1 : leaveReg reg c u = some (setRoom reg c (users.erase u)) := by
    simp [leaveReg, hlk]
  refine ⟨by simp [h1], ?_, ?_⟩
  · intro hu
    rw [h1, Finset.erase_eq_of_not_mem hu, setRoom_lookup_eq _ _ _ hlk]
  · have h2 : leaveReg (setRoom reg c (users.erase u)) c u
        = some (setRoom reg c (users.erase u)) := by
      simp [leaveReg, lookupRoom_setRoom_self, Finset.erase_idem,
        setRoom_setRoom]
    rw [h1]
    simpa using h2

/-- Witness for C7: removing the absent "bob" from room "lobby" with sole
member "alice" succeeds and changes nothing. -/
theorem leave_idempotent_witness :
    (leaveReg [("lobby", ({"alice"} : Users))] "lobby" "bob").isSome = true ∧
    leaveReg [("lobby", ({"alice"} : Users))] "lobby" "bob"
      = some [("lobby", ({"alice"} : Users))] := by
  have h := leave_idempotent [("lobby", {"alice"})] "lobby" "bob" {"alice"}
      (by decide)
  exact ⟨h.1, h.2.1 (by decide)⟩

/-- C6: the teardown of an Active session performs, in order: broadcast
u ++ " left the chat!" (unconditionally — it happens whatever the registry
holds, hence before the registry is touched), then remove the username from
the room's membership set, then remove the room from the registry exactly
when the set became empty; all other rooms are untouched. -/
theorem closing_sequence (reg : Rooms) (c u : String) (ch : BChan)
    (users : Users) (hkeys : (roomKeys reg).Nodup)
    (hlk : lookupRoom reg c = some users) :
    (closing reg c u ch).1.log = ch.log ++ [u ++ " left the chat!"] ∧
    (∀ reg0 : Rooms, (closing reg0 c u ch).1.log
        = ch.log ++ [u ++ " left the chat!"]) ∧
    ∃ reg', (closing reg c u ch).2 = some reg' ∧
      lookupRoom reg' c
        = (if users.erase u = ∅ then none else some (users.erase u)) ∧
      ∀ c', c' ≠ c → lookupRoom reg' c' = lookupRoom reg c' := by
  refine ⟨rfl, fun reg0 => rfl, ?_⟩
  have hcl : (closing reg c u ch).2
      = some (if (users.erase u).card = 0
          then removeRoom (setRoom reg c (users.erase u)) c
          else setRoom reg c (users.erase u)) := by
    simp [closing, cleanupReg, hlk]
  refine ⟨_, hcl, ?_, ?_⟩
  · by_cases hcard : (users.erase u).card = 0
    · rw [if_pos hcard, if_pos (Finset.card_eq_zero.1 hcard)]
      exact lookupRoom_removeRoom_self _ _
        (roomKeys_setRoom_nodup _ _ _ hkeys)
    · rw [if_neg hcard,
        if_neg (fun he => hcard (by rw [he]; exact Finset.card_empty))]
      exact lookupRoom_setRoom_self _ _ _
  · intro c' hc'
    by_cases hcard : (users.erase u).card = 0
    · rw [if_pos hcard, lookupRoom_removeRoom_ne _ _ _ hc',
        lookupRoom_setRoom_ne _ _ _ _ hc']
    · rw [if_neg hcard, lookupRoom_setRoom_ne _ _ _ _ hc']

/-- Witness for C6 in a concrete state: sole member "alice" leaves "lobby";
the departure line is broadcast. -/
theorem closing_sequence_witness :
    (closing [("lobby", ({"alice"} : Users))] "lobby" "alice" ⟨[]⟩).1.log
      = [] ++ ["alice" ++ " left the chat!"] :=
  (closing_sequence [("lobby", {"alice"})] "lobby" "alice" ⟨[]⟩ {"alice"}
    (by decide) (by decide)).1

/-- C3: in every reachable interleaving of session joins and teardowns,
every room present in the registry has a nonempty membership set; no room is
present in the fresh server; a successful first join of a room makes it
present with exactly the joiner as member; and the teardown of a room's last
member removes the room from the registry. -/
theorem registry_room_iff_members (s : Sys) (h : Reachable s) :
    (∀ c us, lookupRoom s.reg c = some us → us.Nonempty) ∧
    (∀ c, lookupRoom Sys.start.reg c = none) ∧
    (∀ c u reg', lookupRoom s.reg c = none →
        joinReg s.reg c u = (true, reg') → lookupRoom reg' c = some {u}) ∧
    (∀ c u reg', lookupRoom s.reg c = some {u} →
        cleanupReg s.reg c u = some reg' → lookupRoom reg' c = none) := by
  obtain ⟨hkeys, hne, -, -⟩ := reachable_inv s h
  refine ⟨hne, fun c => rfl, ?_, ?_⟩
  · intro c u reg' hnone hj
    have hm : u ∉ (lookupRoom s.reg c).getD ∅ := by simp [hnone]
    rw [joinReg_not_mem _ _ _ hm, Prod.mk.injEq] at hj
    rw [← hj.2, lookupRoom_setRoom_self, hnone]
    simp
  · intro c u reg' hlk hcl
    have hcl2 : cleanupReg s.reg c u
        = some (removeRoom (setRoom s.reg c (({u} : Users).erase u)) c) := by
      simp [cleanupReg, hlk]
    rw [hcl2, Option.some.injEq] at hcl
    rw [← hcl]
    exact lookupRoom_removeRoom_self _ _ (roomKeys_setRoom_nodup _ _ _ hkeys)

/-- Witness for C3: from the fresh server, the accepted first join of
"alice" into "lobby" yields a registry in which "lobby" maps to exactly
the singleton set of "alice". -/
theorem registry_room_iff_members_witness :
    lookupRoom [("lobby", ({"alice"} : Users))] "lobby" = some {"alice"} :=
  (registry_room_iff_members Sys.start Reachable.start).2.2.1 "lobby" "alice"
    [("lobby", {"alice"})] rfl (by decide)

/-- C9: in every reachable state, every live session (one whose join was
accepted and whose teardown has not run) still finds its room in the
registry at teardown: the lookup succeeds and the whole locked cleanup block
succeeds, so the `unwrap` on main.rs line 164 cannot panic. -/
theorem cleanup_lookup_never_panics (s : Sys) (h : Reachable s)
    (c u : String) (hmem : (c, u) ∈ s.activeSessions) :
    (lookupRoom s.reg c).isSome = true ∧
    (cleanupReg s.reg c u).isSome = true := by
  obtain ⟨-, -, hact, -⟩ := reachable_inv s h
  obtain ⟨-, us, hlk, -⟩ := hact (c, u) hmem
  refine ⟨by simp [hlk], ?_⟩
  simp [cleanupReg, hlk]

/-- Witness for C9: after "alice" joins "lobby" on the fresh server, her
teardown's registry lookup succeeds. -/
theorem cleanup_lookup_never_panics_witness :
    (cleanupReg [("lobby", ({"alice"} : Users))] "lobby" "alice").isSome
      = true := by
  have hstep : Step Sys.start
      ⟨[("lobby", ({"alice"} : Users))], [("lobby", "alice")]⟩ := by
    have h := Step.join "lobby" "alice" Sys.start true
        [("lobby", ({"alice"} : Users))] (by decide)
    simpa using h
  have hreach := Reachable.step Reachable.start hstep
  exact (cleanup_lookup_never_panics _ hreach "lobby" "alice" (by decide)).2

end Chatroom
